import Mathlib

/-!
Verification of the episode state machine of `TextLocEnv`
(text_localization_environment/TextLocEnv.py).

Modelling conventions (shallow embedding):

* Python floats are modelled as exact rationals (`ℚ`).  All arithmetic in the
  reward engine and geometry utilities is elementary (+, -, *, /, max, min),
  so the rational model matches the source formulas exactly.
* Raised Python exceptions (`AssertionError` on the action-space check,
  `ZeroDivisionError` on a zero denominator, `IndexError` on dataset
  indexing) are modelled with `Except EnvError`.  An error result means the
  call raised; no successor state is produced.
* The episode image is an external capability (`PIL.Image` plus `ImageMasker`).
  It is modelled freely: a base image with a width/height, and a `masked`
  constructor recording each applied inhibition-of-return mark.  Masking
  preserves the image dimensions (the masker draws on the same canvas).
* The bounding-box transformer is an external pluggable capability.  It is
  modelled as a record with an action count, an abstract geometry action
  `applyAction`, and `resetBox` for `reset(width, height)`.  The current
  window `bbox` is stored in the episode state and only written through
  these operations, mirroring `self.bbox_transformer.bbox`.
* `utils.scale_bboxes` and the random number source used by `reset`
  (image choice and premasking draws) are external; they enter `reset` as
  explicit arguments (`scale_bboxes` in the configuration, `rand`/`image_index`
  as parameters).
* `compute_state` (the warped 224x224 crop) is pure pixel processing by the
  external image library; the observation is a function of
  (`episode_image`, `bbox`, `history`) and carries no further state, so it is
  not stored in the model.
-/

namespace TextLoc

/-- A bounding box `[x0, y0, x1, y1]` (`to_standard_box` form). -/
structure Box where
  x0 : ℚ
  y0 : ℚ
  x1 : ℚ
  y1 : ℚ
deriving DecidableEq, Repr

/-- The Box invariant from the data model: `x0 ≤ x1 ∧ y0 ≤ y1`. -/
def Box.invariant (b : Box) : Prop := b.x0 ≤ b.x1 ∧ b.y0 ≤ b.y1

instance (b : Box) : Decidable b.invariant := by
  unfold Box.invariant; infer_instance

/-- `(x1 - x0) * (y1 - y0)`, the area expression used by `compute_iou`. -/
def Box.area (b : Box) : ℚ := (b.x1 - b.x0) * (b.y1 - b.y0)

/-- A strictly positive window: both side lengths positive. -/
def Box.posArea (b : Box) : Prop := b.x0 < b.x1 ∧ b.y0 < b.y1

instance (b : Box) : Decidable b.posArea := by
  unfold Box.posArea; infer_instance

/-- Free model of the episode image: a loaded source image, or the result of
drawing an inhibition-of-return mark (`ImageMasker.mask`) over a region of a
previous image.  Masking replaces the image but keeps its dimensions. -/
inductive Image where
  | source (width height : ℕ) (id : ℕ)
  | masked (img : Image) (region : Box) (marker : String)
deriving DecidableEq, Repr

/-- Image width; drawing a mark does not change it. -/
def Image.width : Image → ℕ
  | .source w _ _ => w
  | .masked img _ _ => img.width

/-- Image height; drawing a mark does not change it. -/
def Image.height : Image → ℕ
  | .source _ h _ => h
  | .masked img _ _ => img.height

/-- The pluggable bounding-box transformer capability: a discrete set of
geometry actions over the current window plus `reset(width, height)`. -/
structure BBoxTransformer where
  numActions : ℕ
  applyAction : ℕ → Box → Box
  resetBox : ℕ → ℕ → Box

/-- The only deferred post-step callback the source ever registers is
`_register_trigger_iou`. -/
inductive PostStepHandler where
  | registerTriggerIou
deriving DecidableEq, Repr

/-- Python exceptions raised by the environment. -/
inductive EnvError where
  /-- The `assert self.action_space.contains(action)` failure in `step`. -/
  | invalidAction
  /-- `ZeroDivisionError` from a division whose denominator is zero. -/
  | zeroDivision
  /-- `IndexError` from indexing the dataset lists out of range in `reset`. -/
  | indexOutOfRange
deriving DecidableEq, Repr

instance {ε α : Type _} [DecidableEq ε] [DecidableEq α] : DecidableEq (Except ε α) := fun a b =>
  match a, b with
  | .ok x, .ok y =>
    if h : x = y then isTrue (congrArg Except.ok h)
    else isFalse (fun hc => h (Except.ok.inj hc))
  | .error x, .error y =>
    if h : x = y then isTrue (congrArg Except.error h)
    else isFalse (fun hc => h (Except.error.inj hc))
  | .ok _, .error _ => isFalse (fun hc => Except.noConfusion hc)
  | .error _, .ok _ => isFalse (fun hc => Except.noConfusion hc)

/-- Process-wide configuration: constructor arguments of `TextLocEnv.__init__`
together with the external capabilities (transformer, loaded dataset,
`utils.scale_bboxes`). -/
structure EnvConfig where
  mode : String
  playout_episode : Bool
  premasking : Bool
  has_termination_action : Bool
  max_steps_per_image : ℤ
  history_length : ℕ
  ior_marker_type : String
  bbox_scaling : Option ℚ
  transformer : BBoxTransformer
  images : List Image
  true_bboxes : List (List Box)
  scale_bboxes : List Box → ℕ × ℕ → ℚ → List Box

/-- The episode-specific mutable fields of `TextLocEnv`. -/
structure EnvState where
  episode_image : Image
  episode_true_bboxes : List Box
  episode_pred_bboxes : List Box
  episode_trigger_ious : List ℚ
  episode_masked_indices : List ℕ
  num_triggers_used : ℕ
  current_step : ℕ
  bbox : Box
  iou : ℚ
  max_iou : ℚ
  done : Bool
  history : List (List Bool)
  post_step_handler : Option PostStepHandler
deriving DecidableEq, Repr

/-- `ETA_TRIGGER = 70.0`. -/
def ETA_TRIGGER : ℚ := 70
/-- `ETA_TERMINATION = 10.0`. -/
def ETA_TERMINATION : ℚ := 10
/-- `DURATION_PENALTY = 0.03`. -/
def DURATION_PENALTY : ℚ := 3 / 100
/-- `P_MASK = 0.5`. -/
def P_MASK : ℚ := 1 / 2

/-- `len(self.action_set)`: the transformer actions, then `trigger`, then
`terminate` when the termination action is enabled. -/
def numActions (cfg : EnvConfig) : ℕ :=
  cfg.transformer.numActions + 1 + (if cfg.has_termination_action then 1 else 0)

/-- The discrete id of the `trigger` action (first id after the transformer
actions). -/
def trigger_action (cfg : EnvConfig) : ℕ := cfg.transformer.numActions

/-- The discrete id of the `terminate` action (last id, present only when
`has_termination_action`). -/
def terminate_action (cfg : EnvConfig) : ℕ := cfg.transformer.numActions + 1

/-- `is_trigger`: the action id maps to the bound `trigger` method. -/
def is_trigger (cfg : EnvConfig) (action : ℕ) : Bool :=
  action == trigger_action cfg

/-- `is_termination`: the action id maps to the bound `terminate` method
(only possible when the termination action is in the action set). -/
def is_termination (cfg : EnvConfig) (action : ℕ) : Bool :=
  cfg.has_termination_action && (action == terminate_action cfg)

/-- `create_empty_history`: `history_length` all-false one-hot rows. -/
def create_empty_history (cfg : EnvConfig) : List (List Bool) :=
  List.replicate cfg.history_length (List.replicate (numActions cfg) false)

/-- `to_one_hot`: an all-false row with position `action` set. -/
def to_one_hot (cfg : EnvConfig) (action : ℕ) : List Bool :=
  (List.range (numActions cfg)).map (fun i => i == action)

/-- `compute_intersection`. -/
def compute_intersection (bbox other_bbox : Box) : ℚ :=
  let left := max bbox.x0 other_bbox.x0
  let top := max bbox.y0 other_bbox.y0
  let right := min bbox.x1 other_bbox.x1
  let bottom := min bbox.y1 other_bbox.y1
  if right < left ∨ bottom < top then 0
  else (right - left) * (bottom - top)

/-- The value `intersection / union` computed by `compute_iou` when the
denominator is nonzero (Lean's total `/` is used here as a plain value;
fault behaviour lives in `compute_iou`). -/
def iouVal (bbox other_bbox : Box) : ℚ :=
  compute_intersection bbox other_bbox /
    (bbox.area + other_bbox.area - compute_intersection bbox other_bbox)

/-- `compute_iou`: intersection over union of the current window and the
argument.  A zero denominator raises `ZeroDivisionError` in Python and is
modelled as an error. -/
def compute_iou (bbox other_bbox : Box) : Except EnvError ℚ :=
  let intersection := compute_intersection bbox other_bbox
  let area_1 := (bbox.x1 - bbox.x0) * (bbox.y1 - bbox.y0)
  let area_2 := (other_bbox.x1 - other_bbox.x0) * (other_bbox.y1 - other_bbox.y0)
  let union := area_1 + area_2 - intersection
  if union = 0 then .error EnvError.zeroDivision
  else .ok (intersection / union)

/-- Loop of `episode_true_bboxes_unmasked`, carrying the running index of
`enumerate`. -/
def unmasked_go (masked : List ℕ) : ℕ → List Box → List Box
  | _, [] => []
  | index, bbox :: rest =>
    if index ∈ masked then unmasked_go masked (index + 1) rest
    else bbox :: unmasked_go masked (index + 1) rest

/-- `episode_true_bboxes_unmasked`: the ground-truth boxes whose index is not
in `episode_masked_indices`, in order. -/
def episode_true_bboxes_unmasked (s : EnvState) : List Box :=
  unmasked_go s.episode_masked_indices 0 s.episode_true_bboxes

/-- Loop of `compute_best_iou`: `max_iou = max(max_iou, compute_iou(box))`
over the unmasked boxes. -/
def best_iou_go (bbox : Box) : List Box → ℚ → Except EnvError ℚ
  | [], acc => .ok acc
  | box :: rest, acc =>
    match compute_iou bbox box with
    | .error e => .error e
    | .ok v => best_iou_go bbox rest (max acc v)

/-- `compute_best_iou`: best IoU of the current window against the unmasked
ground-truth boxes, starting from 0. -/
def compute_best_iou (s : EnvState) : Except EnvError ℚ :=
  best_iou_go s.bbox (episode_true_bboxes_unmasked s) 0

/-- Loop of `closest_unmasked_true_bbox`.  The accumulator mirrors the three
Python locals `(max_iou, best_box_index, best_box)` initialised to `None`.
The replacement test is the source's `if not max_iou or iou > max_iou`:
Python truthiness makes `not max_iou` hold both for `None` and for `0`. -/
def closest_loop (bbox : Box) (masked : List ℕ) :
    ℕ → List Box → Option ℚ × Option ℕ × Option Box → Except EnvError (Option ℕ × Option Box)
  | _, [], (_, best_index, best_box) => .ok (best_index, best_box)
  | index, box :: rest, (max_iou, best_index, best_box) =>
    if index ∈ masked then
      closest_loop bbox masked (index + 1) rest (max_iou, best_index, best_box)
    else
      match compute_iou bbox box with
      | .error e => .error e
      | .ok iou =>
        match max_iou with
        | none => closest_loop bbox masked (index + 1) rest (some iou, some index, some box)
        | some m =>
          if m = 0 ∨ iou > m then
            closest_loop bbox masked (index + 1) rest (some iou, some index, some box)
          else
            closest_loop bbox masked (index + 1) rest (some m, best_index, best_box)

/-- `closest_unmasked_true_bbox`: scan `enumerate(episode_true_bboxes)`,
skipping masked indices, returning `(best_box_index, best_box)`. -/
def closest_unmasked_true_bbox (s : EnvState) : Except EnvError (Option ℕ × Option Box) :=
  closest_loop s.bbox s.episode_masked_indices 0 s.episode_true_bboxes (none, none, none)

/-- `create_ior_mark`: replace the episode image by the image with the given
region marked. -/
def create_ior_mark (cfg : EnvConfig) (s : EnvState) (bbox : Box) : EnvState :=
  { s with episode_image := Image.masked s.episode_image bbox cfg.ior_marker_type }

/-- `self.bbox_transformer.reset(self.episode_image.width, self.episode_image.height)`. -/
def transformer_reset (cfg : EnvConfig) (s : EnvState) : EnvState :=
  { s with bbox := cfg.transformer.resetBox s.episode_image.width s.episode_image.height }

/-- The `trigger` action.  Increment the trigger counter, log the predicted
box, register the deferred IoU logger; end the episode when not playing out;
otherwise mask (the best-matching ground-truth box in training mode, the
current window otherwise) and reset the transformer to the full image. -/
def trigger (cfg : EnvConfig) (s : EnvState) : Except EnvError EnvState :=
  let s1 := { s with
    num_triggers_used := s.num_triggers_used + 1
    episode_pred_bboxes := s.episode_pred_bboxes ++ [s.bbox]
    post_step_handler := some PostStepHandler.registerTriggerIou }
  if cfg.playout_episode = false then
    .ok { s1 with done := true }
  else if cfg.mode = "train" then
    if (episode_true_bboxes_unmasked s1).length > 0 then
      match closest_unmasked_true_bbox s1 with
      | .error e => .error e
      | .ok (some index, some box) =>
        let s2 := create_ior_mark cfg s1 box
        let s3 := { s2 with episode_masked_indices := s2.episode_masked_indices ++ [index] }
        .ok (transformer_reset cfg s3)
      | .ok (_, _) =>
        -- Unreachable: with an unmasked box present the scan always picks one.
        .ok (transformer_reset cfg s1)
    else
      .ok (transformer_reset cfg s1)
  else
    let s2 := create_ior_mark cfg s1 s1.bbox
    .ok (transformer_reset cfg s2)

/-- `_register_trigger_iou`, as run by the post-step dispatch in `step`:
append the current `iou` to the trigger-IoU log and clear the handler. -/
def run_post_step_handler (s : EnvState) : EnvState :=
  match s.post_step_handler with
  | some PostStepHandler.registerTriggerIou =>
    { s with
      episode_trigger_ious := s.episode_trigger_ious ++ [s.iou]
      post_step_handler := none }
  | none => s

/-- The `terminate` action: set `done`. -/
def terminate (s : EnvState) : EnvState := { s with done := true }

/-- `self.action_set[action]()`: transformer actions occupy the low ids,
then `trigger`, then (when enabled) `terminate`. -/
def dispatch_action (cfg : EnvConfig) (s : EnvState) (action : ℕ) : Except EnvError EnvState :=
  if action < cfg.transformer.numActions then
    .ok { s with bbox := cfg.transformer.applyAction action s.bbox }
  else if action = trigger_action cfg then
    trigger cfg s
  else
    .ok (terminate s)

/-- `calculate_reward`.  The termination branch divides by
`len(episode_true_bboxes)` (a `ZeroDivisionError` when the collection is
empty); the trigger branch uses the lazily-kept `iou`; the transformer branch
recomputes `iou` as the best IoU over unmasked boxes and yields 0. -/
def calculate_reward (cfg : EnvConfig) (s : EnvState) (action : ℕ) :
    Except EnvError (EnvState × ℚ) :=
  if cfg.has_termination_action && is_termination cfg action then
    if s.episode_true_bboxes.length = 0 then
      .error EnvError.zeroDivision
    else
      let pct_triggers_used : ℚ :=
        (s.num_triggers_used : ℚ) / (s.episode_true_bboxes.length : ℚ)
      if pct_triggers_used ≠ 1 then
        .ok (s, -ETA_TERMINATION)
      else
        .ok (s, ETA_TERMINATION + (s.current_step : ℚ) * DURATION_PENALTY)
  else if is_trigger cfg action then
    .ok (s, ETA_TRIGGER * s.iou - (s.current_step : ℚ) * DURATION_PENALTY)
  else
    match compute_best_iou s with
    | .error e => .error e
    | .ok best => .ok ({ s with iou := best }, 0)

/-- The step-budget clause at the end of `step`: force `done` once the step
counter reaches a configured limit. -/
def step_budget (cfg : EnvConfig) (s6 : EnvState) : EnvState :=
  if cfg.max_steps_per_image ≠ -1 ∧ (s6.current_step : ℤ) ≥ cfg.max_steps_per_image
  then { s6 with done := true } else s6

/-- The tail of `step` after reward computation: the running max-IoU update,
the history push/pop, the one-shot post-step callback, and the step budget. -/
def step_tail (cfg : EnvConfig) (action : ℕ) (s3 : EnvState) : EnvState :=
  step_budget cfg (run_post_step_handler
    { s3 with
      max_iou := max s3.iou s3.max_iou
      history := (to_one_hot cfg action :: s3.history).dropLast })

/-- `step`: validity assertion, step counter, dispatch, reward, running
max-IoU, history push, deferred post-step callback, then the step budget. -/
def step (cfg : EnvConfig) (s : EnvState) (action : ℕ) :
    Except EnvError (EnvState × ℚ × Bool) :=
  if action < numActions cfg then
    match dispatch_action cfg { s with current_step := s.current_step + 1 } action with
    | .error e => .error e
    | .ok s2 =>
      match calculate_reward cfg s2 action with
      | .error e => .error e
      | .ok (s3, reward) =>
        .ok (step_tail cfg action s3, reward, (step_tail cfg action s3).done)
  else
    .error EnvError.invalidAction

/-- Premasking loop of `reset`: walk `enumerate(episode_true_bboxes)` with one
random draw per index, masking while the floor of unmasked boxes permits. -/
def premask_go (cfg : EnvConfig) (rand : ℕ → ℚ) (min_unmasked : ℕ) :
    List Box → ℕ → ℕ → Image → List ℕ → Image × List ℕ
  | [], _, _, img, masked => (img, masked)
  | box :: rest, idx, num_unmasked, img, masked =>
    if num_unmasked > min_unmasked ∧ rand idx ≤ P_MASK then
      premask_go cfg rand min_unmasked rest (idx + 1) (num_unmasked - 1)
        (Image.masked img box cfg.ior_marker_type) (masked ++ [idx])
    else
      premask_go cfg rand min_unmasked rest (idx + 1) num_unmasked img masked

/-- `reset(image_index)`.  The random image choice and the per-box premasking
draws are external randomness, passed in as `image_index` and `rand`.  The
RGB conversion is pixel-level work of the external image library. -/
def reset (cfg : EnvConfig) (s : EnvState) (image_index : ℕ) (rand : ℕ → ℚ) :
    Except EnvError EnvState :=
  match cfg.images.get? image_index, cfg.true_bboxes.get? image_index with
  | some img, some raw_bboxes =>
    let history := create_empty_history cfg
    let episode_true_bboxes :=
      match cfg.bbox_scaling with
      | none => raw_bboxes
      | some factor =>
        if factor ≠ 1 then cfg.scale_bboxes raw_bboxes (img.width, img.height) factor
        else raw_bboxes
    let premask_result :=
      if cfg.mode = "train" ∧ cfg.premasking then
        -- `num_unmasked` starts at `episode_num_true_bboxes`; for an empty
        -- collection the loop body never runs, so the length is equivalent.
        premask_go cfg rand (if cfg.has_termination_action then 0 else 1)
          episode_true_bboxes 0 episode_true_bboxes.length img []
      else (img, [])
    let s1 : EnvState :=
      { episode_image := premask_result.1
        episode_true_bboxes := episode_true_bboxes
        episode_pred_bboxes := []
        episode_trigger_ious := []
        episode_masked_indices := premask_result.2
        num_triggers_used := 0
        current_step := 0
        bbox := cfg.transformer.resetBox premask_result.1.width premask_result.1.height
        iou := 0
        max_iou := 0
        done := false
        history := history
        post_step_handler := s.post_step_handler }
    match compute_best_iou s1 with
    | .error e => .error e
    | .ok best => .ok { s1 with iou := best, max_iou := best }
  | _, _ => .error EnvError.indexOutOfRange

/-! ### Concrete fixtures used by witnesses and counterexamples -/

/-- A minimal concrete transformer: one identity geometry action, reset to
the full image window. -/
def tf1 : BBoxTransformer :=
  { numActions := 1
    applyAction := fun _ b => b
    resetBox := fun w h => ⟨0, 0, (w : ℚ), (h : ℚ)⟩ }

/-- A concrete training-mode configuration over one 100x100 image with two
ground-truth boxes. -/
def cfg_train : EnvConfig :=
  { mode := "train"
    playout_episode := true
    premasking := true
    has_termination_action := true
    max_steps_per_image := 200
    history_length := 10
    ior_marker_type := "cross"
    bbox_scaling := none
    transformer := tf1
    images := [Image.source 100 100 0]
    true_bboxes := [[⟨2, 2, 3, 3⟩, ⟨4, 4, 5, 5⟩]]
    scale_bboxes := fun boxes _ _ => boxes }

/-- The same configuration in evaluation mode. -/
def cfg_eval : EnvConfig := { cfg_train with mode := "eval", premasking := false }

/-- The evaluation configuration over a dataset whose single image has no
ground-truth boxes. -/
def cfg_empty : EnvConfig := { cfg_eval with true_bboxes := [[]] }

/-- A concrete mid-episode state over the `cfg_train` dataset. -/
def s_base : EnvState :=
  { episode_image := Image.source 100 100 0
    episode_true_bboxes := [⟨2, 2, 3, 3⟩, ⟨4, 4, 5, 5⟩]
    episode_pred_bboxes := []
    episode_trigger_ious := []
    episode_masked_indices := []
    num_triggers_used := 0
    current_step := 0
    bbox := ⟨0, 0, 1, 1⟩
    iou := 0
    max_iou := 0
    done := false
    history := []
    post_step_handler := none }

/-! ### Geometry lemmas -/

lemma compute_intersection_nonneg (a b : Box) : 0 ≤ compute_intersection a b := by
  simp only [compute_intersection]
  split
  · exact le_refl 0
  · rename_i h
    push_neg at h
    exact mul_nonneg (by linarith [h.1]) (by linarith [h.2])

lemma compute_intersection_le_right (a b : Box) (hb : b.invariant) :
    compute_intersection a b ≤ b.area := by
  obtain ⟨hbx, hby⟩ := hb
  simp only [compute_intersection, Box.area]
  split
  · exact mul_nonneg (by linarith) (by linarith)
  · rename_i h
    push_neg at h
    apply mul_le_mul
    · have h1 : min a.x1 b.x1 ≤ b.x1 := min_le_right _ _
      have h2 : b.x0 ≤ max a.x0 b.x0 := le_max_right _ _
      linarith
    · have h1 : min a.y1 b.y1 ≤ b.y1 := min_le_right _ _
      have h2 : b.y0 ≤ max a.y0 b.y0 := le_max_right _ _
      linarith
    · linarith [h.2]
    · linarith

lemma compute_intersection_le_left (a b : Box) (ha : a.invariant) :
    compute_intersection a b ≤ a.area := by
  obtain ⟨hax, hay⟩ := ha
  simp only [compute_intersection, Box.area]
  split
  · exact mul_nonneg (by linarith) (by linarith)
  · rename_i h
    push_neg at h
    apply mul_le_mul
    · have h1 : min a.x1 b.x1 ≤ a.x1 := min_le_left _ _
      have h2 : a.x0 ≤ max a.x0 b.x0 := le_max_left _ _
      linarith
    · have h1 : min a.y1 b.y1 ≤ a.y1 := min_le_left _ _
      have h2 : a.y0 ≤ max a.y0 b.y0 := le_max_left _ _
      linarith
    · linarith [h.2]
    · linarith

lemma compute_iou_eq (a b : Box) :
    compute_iou a b =
      if a.area + b.area - compute_intersection a b = 0 then .error EnvError.zeroDivision
      else .ok (iouVal a b) := rfl

lemma Box.posArea.area_pos {a : Box} (ha : a.posArea) : 0 < a.area :=
  mul_pos (by linarith [ha.1]) (by linarith [ha.2])

lemma Box.posArea.invariant {a : Box} (ha : a.posArea) : a.invariant :=
  ⟨le_of_lt ha.1, le_of_lt ha.2⟩

lemma union_pos_left (a b : Box) (ha : a.posArea) (hb : b.invariant) :
    0 < a.area + b.area - compute_intersection a b := by
  have h1 := compute_intersection_le_right a b hb
  have h2 := ha.area_pos
  linarith

lemma compute_iou_ok (a b : Box) (ha : a.posArea) (hb : b.invariant) :
    compute_iou a b = .ok (iouVal a b) := by
  rw [compute_iou_eq, if_neg (by linarith [union_pos_left a b ha hb])]

lemma iouVal_nonneg (a b : Box) (ha : a.posArea) (hb : b.invariant) :
    0 ≤ iouVal a b := by
  exact div_nonneg (compute_intersection_nonneg a b) (le_of_lt (union_pos_left a b ha hb))

/-! ### Claim C2 -/

/-- Claim C2 counterexample: two boxes that both satisfy the Box invariant
and both have zero area make `compute_iou` divide by zero (a raised
`ZeroDivisionError`), not the defined value 0 — the claim's "never raises a
division fault" is false at this input. -/
theorem c2_counterexample :
    Box.invariant ⟨0, 0, 0, 0⟩ ∧ Box.area ⟨0, 0, 0, 0⟩ = 0 ∧
      compute_iou ⟨0, 0, 0, 0⟩ ⟨0, 0, 0, 0⟩ = .error EnvError.zeroDivision := by
  refine ⟨⟨le_refl 0, le_refl 0⟩, by norm_num [Box.area], ?_⟩
  rw [compute_iou_eq]
  norm_num [Box.area, compute_intersection]

/-- Claim C2 (amended): for boxes satisfying the Box invariant, `compute_iou`
raises no division fault provided at least one of the two boxes has positive
area, and in that case a zero-area box on either side yields the defined
IoU 0.  When both boxes have zero area the division is by zero and the call
raises `ZeroDivisionError`. -/
theorem c2_iou_of_zero_area (a b : Box) (ha : a.invariant) (hb : b.invariant)
    (hpos : 0 < a.area ∨ 0 < b.area) :
    ∃ v, compute_iou a b = .ok v ∧ 0 ≤ v ∧ ((a.area = 0 ∨ b.area = 0) → v = 0) := by
  have hunion : 0 < a.area + b.area - compute_intersection a b := by
    rcases hpos with h | h
    · have := compute_intersection_le_right a b hb
      linarith
    · have := compute_intersection_le_left a b ha
      linarith
  refine ⟨iouVal a b, ?_, ?_, ?_⟩
  · rw [compute_iou_eq, if_neg (by linarith)]
  · exact div_nonneg (compute_intersection_nonneg a b) (le_of_lt hunion)
  · intro hzero
    have hinter : compute_intersection a b = 0 := by
      have hnn := compute_intersection_nonneg a b
      rcases hzero with h | h
      · have := compute_intersection_le_left a b ha
        linarith
      · have := compute_intersection_le_right a b hb
        linarith
    simp only [iouVal, hinter, zero_div]

/-- Witness for C2's amended theorem at a concrete input: a positive-area box
against a degenerate zero-area box yields IoU 0 without a fault. -/
theorem c2_witness :
    ∃ v, compute_iou ⟨0, 0, 2, 2⟩ ⟨1, 1, 1, 1⟩ = .ok v ∧ 0 ≤ v ∧
      ((Box.area ⟨0, 0, 2, 2⟩ = 0 ∨ Box.area ⟨1, 1, 1, 1⟩ = 0) → v = 0) :=
  c2_iou_of_zero_area ⟨0, 0, 2, 2⟩ ⟨1, 1, 1, 1⟩ (by constructor <;> norm_num)
    (by constructor <;> norm_num) (Or.inl (by norm_num [Box.area]))

/-! ### Structural lemmas about the step pipeline -/

lemma trigger_action_lt (cfg : EnvConfig) : trigger_action cfg < numActions cfg := by
  simp only [trigger_action, numActions]
  omega

lemma terminate_action_lt (cfg : EnvConfig) (h : cfg.has_termination_action = true) :
    terminate_action cfg < numActions cfg := by
  simp only [terminate_action, numActions, h, if_true]
  omega

lemma step_ok_elim (cfg : EnvConfig) (s : EnvState) (action : ℕ) (s' : EnvState) (r : ℚ)
    (d : Bool) (h : step cfg s action = .ok (s', r, d)) :
    action < numActions cfg ∧
    ∃ s2 s3,
      dispatch_action cfg { s with current_step := s.current_step + 1 } action = .ok s2 ∧
      calculate_reward cfg s2 action = .ok (s3, r) ∧
      s' = step_tail cfg action s3 ∧ d = s'.done := by
  unfold step at h
  split at h
  case isFalse => exact absurd h (by simp)
  case isTrue hlt =>
    refine ⟨hlt, ?_⟩
    cases hd : dispatch_action cfg { s with current_step := s.current_step + 1 } action with
    | error e => rw [hd] at h; exact absurd h (by simp)
    | ok s2 =>
      rw [hd] at h
      dsimp only at h
      cases hr : calculate_reward cfg s2 action with
      | error e => rw [hr] at h; exact absurd h (by simp)
      | ok p =>
        obtain ⟨s3, reward⟩ := p
        rw [hr] at h
        dsimp only at h
        simp only [Except.ok.injEq, Prod.mk.injEq] at h
        obtain ⟨hs, hrw, hdn⟩ := h
        exact ⟨s2, s3, rfl, by rw [← hrw]; exact hr, hs.symm, by rw [← hs]; exact hdn.symm⟩

lemma step_intro (cfg : EnvConfig) (s : EnvState) (action : ℕ) (s2 s3 : EnvState) (r : ℚ)
    (hlt : action < numActions cfg)
    (hd : dispatch_action cfg { s with current_step := s.current_step + 1 } action = .ok s2)
    (hr : calculate_reward cfg s2 action = .ok (s3, r)) :
    step cfg s action = .ok (step_tail cfg action s3, r, (step_tail cfg action s3).done) := by
  unfold step
  rw [if_pos hlt, hd]
  dsimp only
  rw [hr]

lemma run_post_step_handler_fields (s : EnvState) :
    (run_post_step_handler s).max_iou = s.max_iou ∧
    (run_post_step_handler s).iou = s.iou ∧
    (run_post_step_handler s).current_step = s.current_step ∧
    (run_post_step_handler s).episode_image = s.episode_image ∧
    (run_post_step_handler s).episode_masked_indices = s.episode_masked_indices ∧
    (run_post_step_handler s).episode_pred_bboxes = s.episode_pred_bboxes ∧
    (run_post_step_handler s).num_triggers_used = s.num_triggers_used ∧
    (run_post_step_handler s).bbox = s.bbox ∧
    (run_post_step_handler s).episode_true_bboxes = s.episode_true_bboxes ∧
    (run_post_step_handler s).done = s.done ∧
    (run_post_step_handler s).post_step_handler = none ∧
    (run_post_step_handler s).episode_trigger_ious =
      (match s.post_step_handler with
       | some PostStepHandler.registerTriggerIou => s.episode_trigger_ious ++ [s.iou]
       | none => s.episode_trigger_ious) := by
  unfold run_post_step_handler
  cases hps : s.post_step_handler with
  | none => simp [hps]
  | some handler => cases handler; simp [hps]

lemma step_budget_fields (cfg : EnvConfig) (s6 : EnvState) :
    (step_budget cfg s6).max_iou = s6.max_iou ∧
    (step_budget cfg s6).iou = s6.iou ∧
    (step_budget cfg s6).current_step = s6.current_step ∧
    (step_budget cfg s6).episode_image = s6.episode_image ∧
    (step_budget cfg s6).episode_masked_indices = s6.episode_masked_indices ∧
    (step_budget cfg s6).episode_pred_bboxes = s6.episode_pred_bboxes ∧
    (step_budget cfg s6).num_triggers_used = s6.num_triggers_used ∧
    (step_budget cfg s6).bbox = s6.bbox ∧
    (step_budget cfg s6).episode_true_bboxes = s6.episode_true_bboxes ∧
    (step_budget cfg s6).post_step_handler = s6.post_step_handler ∧
    (step_budget cfg s6).episode_trigger_ious = s6.episode_trigger_ious ∧
    (s6.done = true → (step_budget cfg s6).done = true) := by
  unfold step_budget
  split <;> simp

lemma step_tail_fields (cfg : EnvConfig) (action : ℕ) (s3 : EnvState) :
    (step_tail cfg action s3).max_iou = max s3.iou s3.max_iou ∧
    (step_tail cfg action s3).iou = s3.iou ∧
    (step_tail cfg action s3).current_step = s3.current_step ∧
    (step_tail cfg action s3).episode_image = s3.episode_image ∧
    (step_tail cfg action s3).episode_masked_indices = s3.episode_masked_indices ∧
    (step_tail cfg action s3).episode_pred_bboxes = s3.episode_pred_bboxes ∧
    (step_tail cfg action s3).num_triggers_used = s3.num_triggers_used ∧
    (step_tail cfg action s3).bbox = s3.bbox ∧
    (step_tail cfg action s3).episode_true_bboxes = s3.episode_true_bboxes ∧
    (step_tail cfg action s3).post_step_handler = none ∧
    (step_tail cfg action s3).episode_trigger_ious =
      (match s3.post_step_handler with
       | some PostStepHandler.registerTriggerIou => s3.episode_trigger_ious ++ [s3.iou]
       | none => s3.episode_trigger_ious) ∧
    (s3.done = true → (step_tail cfg action s3).done = true) := by
  have hrun := run_post_step_handler_fields
    { s3 with
      max_iou := max s3.iou s3.max_iou
      history := (to_one_hot cfg action :: s3.history).dropLast }
  have hbud := step_budget_fields cfg (run_post_step_handler
    { s3 with
      max_iou := max s3.iou s3.max_iou
      history := (to_one_hot cfg action :: s3.history).dropLast })
  unfold step_tail
  obtain ⟨b1, b2, b3, b4, b5, b6, b7, b8, b9, b10, b11, b12⟩ := hbud
  obtain ⟨h1, h2, h3, h4, h5, h6, h7, h8, h9, h10, h11, h12⟩ := hrun
  refine ⟨?_, ?_, ?_, ?_, ?_, ?_, ?_, ?_, ?_, ?_, ?_, ?_⟩ <;>
    simp_all

lemma calculate_reward_trigger (cfg : EnvConfig) (s : EnvState) :
    calculate_reward cfg s (trigger_action cfg) =
      .ok (s, ETA_TRIGGER * s.iou - (s.current_step : ℚ) * DURATION_PENALTY) := by
  unfold calculate_reward
  have h1 : is_termination cfg (trigger_action cfg) = false := by
    simp only [is_termination, trigger_action, terminate_action]
    simp [Bool.and_eq_false_iff]
  have h2 : is_trigger cfg (trigger_action cfg) = true := by
    simp [is_trigger]
  rw [h1, h2]
  simp

lemma calculate_reward_preserves (cfg : EnvConfig) (s : EnvState) (action : ℕ)
    (s3 : EnvState) (r : ℚ) (h : calculate_reward cfg s action = .ok (s3, r)) :
    s3.max_iou = s.max_iou ∧
    s3.current_step = s.current_step ∧
    s3.episode_image = s.episode_image ∧
    s3.episode_masked_indices = s.episode_masked_indices ∧
    s3.episode_pred_bboxes = s.episode_pred_bboxes ∧
    s3.episode_trigger_ious = s.episode_trigger_ious ∧
    s3.num_triggers_used = s.num_triggers_used ∧
    s3.bbox = s.bbox ∧
    s3.episode_true_bboxes = s.episode_true_bboxes ∧
    s3.done = s.done ∧
    s3.post_step_handler = s.post_step_handler := by
  unfold calculate_reward at h
  split at h
  · split at h
    · exact absurd h (by simp)
    · dsimp only at h
      split at h <;>
      · simp only [Except.ok.injEq, Prod.mk.injEq] at h
        obtain ⟨hs, -⟩ := h
        subst hs
        exact ⟨rfl, rfl, rfl, rfl, rfl, rfl, rfl, rfl, rfl, rfl, rfl⟩
  · split at h
    · simp only [Except.ok.injEq, Prod.mk.injEq] at h
      obtain ⟨hs, -⟩ := h
      subst hs
      exact ⟨rfl, rfl, rfl, rfl, rfl, rfl, rfl, rfl, rfl, rfl, rfl⟩
    · cases hb : compute_best_iou s with
      | error e => rw [hb] at h; exact absurd h (by simp)
      | ok best =>
        rw [hb] at h
        simp only [Except.ok.injEq, Prod.mk.injEq] at h
        obtain ⟨hs, -⟩ := h
        subst hs
        exact ⟨rfl, rfl, rfl, rfl, rfl, rfl, rfl, rfl, rfl, rfl, rfl⟩

lemma trigger_ok_fields (cfg : EnvConfig) (s st : EnvState)
    (h : trigger cfg s = .ok st) :
    st.episode_trigger_ious = s.episode_trigger_ious ∧
    st.iou = s.iou ∧
    st.max_iou = s.max_iou ∧
    st.current_step = s.current_step ∧
    st.post_step_handler = some PostStepHandler.registerTriggerIou ∧
    st.num_triggers_used = s.num_triggers_used + 1 ∧
    st.episode_pred_bboxes = s.episode_pred_bboxes ++ [s.bbox] ∧
    st.episode_true_bboxes = s.episode_true_bboxes ∧
    st.history = s.history ∧
    (cfg.playout_episode = false → st.done = true ∧ st.episode_image = s.episode_image ∧
      st.episode_masked_indices = s.episode_masked_indices ∧ st.bbox = s.bbox) := by
  unfold trigger at h
  split at h
  case isTrue hpl =>
    simp only [Except.ok.injEq] at h
    subst h
    simp
  case isFalse hpl =>
    split at h
    case isTrue hmode =>
      dsimp only at h
      split at h
      case isTrue hlen =>
        cases hc : closest_unmasked_true_bbox
            { s with
              num_triggers_used := s.num_triggers_used + 1
              episode_pred_bboxes := s.episode_pred_bboxes ++ [s.bbox]
              post_step_handler := some PostStepHandler.registerTriggerIou } with
        | error e => rw [hc] at h; exact absurd h (by simp)
        | ok p =>
          rw [hc] at h
          obtain ⟨oi, ob⟩ := p
          cases oi <;> cases ob <;>
            simp only [Except.ok.injEq] at h <;> subst h <;>
            simp [transformer_reset, create_ior_mark, hpl]
      case isFalse hlen =>
        simp only [Except.ok.injEq] at h
        subst h
        simp [transformer_reset, hpl]
    case isFalse hmode =>
      simp only [Except.ok.injEq] at h
      subst h
      simp [transformer_reset, create_ior_mark, hpl]

lemma calculate_reward_terminate (cfg : EnvConfig) (s : EnvState)
    (hterm : cfg.has_termination_action = true)
    (hne : ¬s.episode_true_bboxes.length = 0) :
    calculate_reward cfg s (terminate_action cfg) =
      .ok (s, if ((s.num_triggers_used : ℚ) / (s.episode_true_bboxes.length : ℚ)) ≠ 1
              then -ETA_TERMINATION
              else ETA_TERMINATION + (s.current_step : ℚ) * DURATION_PENALTY) := by
  unfold calculate_reward
  rw [if_pos (show (cfg.has_termination_action && is_termination cfg (terminate_action cfg))
        = true by simp [is_termination, hterm]),
     if_neg hne]
  dsimp only
  split <;> rfl

lemma calculate_reward_terminate_empty (cfg : EnvConfig) (s : EnvState)
    (hterm : cfg.has_termination_action = true)
    (hemp : s.episode_true_bboxes = []) :
    calculate_reward cfg s (terminate_action cfg) = .error EnvError.zeroDivision := by
  unfold calculate_reward
  rw [if_pos (show (cfg.has_termination_action && is_termination cfg (terminate_action cfg))
        = true by simp [is_termination, hterm]),
     if_pos (show s.episode_true_bboxes.length = 0 by rw [hemp]; rfl)]

lemma dispatch_terminate (cfg : EnvConfig) (s : EnvState) :
    dispatch_action cfg s (terminate_action cfg) = .ok (terminate s) := by
  unfold dispatch_action
  rw [if_neg (by simp [terminate_action]), if_neg (by simp [terminate_action, trigger_action])]

lemma dispatch_trigger (cfg : EnvConfig) (s : EnvState) :
    dispatch_action cfg s (trigger_action cfg) = trigger cfg s := by
  unfold dispatch_action
  rw [if_neg (by simp [trigger_action]), if_pos rfl]

lemma trigger_noplay (cfg : EnvConfig) (s : EnvState) (hpl : cfg.playout_episode = false) :
    trigger cfg s = .ok
      { s with
        num_triggers_used := s.num_triggers_used + 1
        episode_pred_bboxes := s.episode_pred_bboxes ++ [s.bbox]
        post_step_handler := some PostStepHandler.registerTriggerIou
        done := true } := by
  unfold trigger
  dsimp only
  rw [if_pos hpl]

lemma step_trigger_noplay (cfg : EnvConfig) (s : EnvState)
    (hpl : cfg.playout_episode = false) :
    ∃ s' r d, step cfg s (trigger_action cfg) = .ok (s', r, d) := by
  have hd := (dispatch_trigger cfg { s with current_step := s.current_step + 1 }).trans
    (trigger_noplay cfg { s with current_step := s.current_step + 1 } hpl)
  exact ⟨_, _, _, step_intro cfg s (trigger_action cfg) _ _ _ (trigger_action_lt cfg) hd
    (calculate_reward_trigger cfg _)⟩

/-! ### Claims C3, C5, C7, C8, C9 -/

/-- Claim C3: on every successful trigger step, the IoU value appended to
`episode_trigger_ious` is appended during that same `step` call by the
one-shot post-step callback (which is cleared by the end of the call), and it
equals exactly the `iou` value used in that step's reward computation
(`reward = ETA_TRIGGER * iou - currentStep * DURATION_PENALTY`); it is not
recorded one step after the trigger. -/
theorem c3_trigger_iou_logged_same_step (cfg : EnvConfig) (s s' : EnvState) (r : ℚ) (d : Bool)
    (hstep : step cfg s (trigger_action cfg) = .ok (s', r, d)) :
    s'.episode_trigger_ious = s.episode_trigger_ious ++ [s.iou] ∧
    r = ETA_TRIGGER * s.iou - ((s.current_step : ℚ) + 1) * DURATION_PENALTY ∧
    s'.post_step_handler = none := by
  obtain ⟨hlt, s2, s3, hd, hr, hs', -⟩ := step_ok_elim cfg s _ s' r d hstep
  rw [dispatch_trigger] at hd
  obtain ⟨ht1, ht2, -, ht4, ht5, -, -, -, -, -⟩ := trigger_ok_fields _ _ _ hd
  rw [calculate_reward_trigger] at hr
  simp only [Except.ok.injEq, Prod.mk.injEq] at hr
  obtain ⟨hs3, hrval⟩ := hr
  subst hs3
  obtain ⟨-, -, -, -, -, -, -, -, -, f10, f11, -⟩ :=
    step_tail_fields cfg (trigger_action cfg) s2
  refine ⟨?_, ?_, ?_⟩
  · rw [hs', f11, ht5, ht1, ht2]
  · rw [← hrval, ht2, ht4]
    push_cast
    ring
  · rw [hs', f10]

/-- Witness for C3 at a concrete input: a trigger step on the concrete
evaluation configuration with `playout_episode = false`. -/
theorem c3_witness :
    ∃ s' r d, step { cfg_eval with playout_episode := false } s_base
        (trigger_action { cfg_eval with playout_episode := false }) = .ok (s', r, d) ∧
      s'.episode_trigger_ious = s_base.episode_trigger_ious ++ [s_base.iou] ∧
      s'.post_step_handler = none := by
  obtain ⟨s', r, d, h⟩ :=
    step_trigger_noplay { cfg_eval with playout_episode := false } s_base rfl
  obtain ⟨h1, -, h3⟩ := c3_trigger_iou_logged_same_step _ _ _ _ _ h
  exact ⟨s', r, d, h, h1, h3⟩

/-- Claim C5: on every successful trigger step the reward equals
`ETA_TRIGGER * currentIoU - currentStep * DURATION_PENALTY`, where
`currentIoU` is the environment's lazily-kept IoU value at reward-evaluation
time (the trigger protocol does not change it) and `currentStep` is the
just-incremented step counter. -/
theorem c5_trigger_reward_formula (cfg : EnvConfig) (s s' : EnvState) (r : ℚ) (d : Bool)
    (hstep : step cfg s (trigger_action cfg) = .ok (s', r, d)) :
    r = ETA_TRIGGER * s.iou - ((s.current_step : ℚ) + 1) * DURATION_PENALTY := by
  obtain ⟨hlt, s2, s3, hd, hr, -, -⟩ := step_ok_elim cfg s _ s' r d hstep
  rw [dispatch_trigger] at hd
  obtain ⟨-, ht2, -, ht4, -, -, -, -, -, -⟩ := trigger_ok_fields _ _ _ hd
  rw [calculate_reward_trigger] at hr
  simp only [Except.ok.injEq, Prod.mk.injEq] at hr
  obtain ⟨-, hrval⟩ := hr
  rw [← hrval, ht2, ht4]
  push_cast
  ring

/-- Witness for C5 at the claim's concrete numbers: `currentIoU = 0.8` and a
trigger arriving as step 3 yield reward `70.0 * 0.8 - 3 * 0.03 = 55.91`. -/
theorem c5_witness :
    ∃ s' r d, step { cfg_eval with playout_episode := false }
        { s_base with iou := 4 / 5, current_step := 2 }
        (trigger_action { cfg_eval with playout_episode := false }) = .ok (s', r, d) ∧
      r = 5591 / 100 := by
  obtain ⟨s', r, d, h⟩ := step_trigger_noplay { cfg_eval with playout_episode := false }
    { s_base with iou := 4 / 5, current_step := 2 } rfl
  have hr := c5_trigger_reward_formula _ _ _ _ _ h
  refine ⟨s', r, d, h, ?_⟩
  rw [hr]
  norm_num [s_base, ETA_TRIGGER, DURATION_PENALTY]

/-- Claim C7: when `playout_episode = false`, a trigger step always succeeds
and sets `done` on that very step (regardless of prior history), appends the
current window to the predicted boxes and increments the trigger counter, but
leaves the episode image, the masked indices and the current window (no
transformer reset) unchanged. -/
theorem c7_trigger_ends_episode (cfg : EnvConfig) (s : EnvState)
    (hpl : cfg.playout_episode = false) :
    ∃ s' r, step cfg s (trigger_action cfg) = .ok (s', r, true) ∧
      s'.done = true ∧
      s'.episode_pred_bboxes = s.episode_pred_bboxes ++ [s.bbox] ∧
      s'.num_triggers_used = s.num_triggers_used + 1 ∧
      s'.episode_image = s.episode_image ∧
      s'.episode_masked_indices = s.episode_masked_indices ∧
      s'.bbox = s.bbox := by
  have hd := (dispatch_trigger cfg { s with current_step := s.current_step + 1 }).trans
    (trigger_noplay cfg { s with current_step := s.current_step + 1 } hpl)
  have hstep := step_intro cfg s (trigger_action cfg) _ _ _ (trigger_action_lt cfg) hd
    (calculate_reward_trigger cfg _)
  obtain ⟨f1, f2, f3, f4, f5, f6, f7, f8, f9, f10, f11, f12⟩ :=
    step_tail_fields cfg (trigger_action cfg)
      { s with
        current_step := s.current_step + 1
        num_triggers_used := s.num_triggers_used + 1
        episode_pred_bboxes := s.episode_pred_bboxes ++ [s.bbox]
        post_step_handler := some PostStepHandler.registerTriggerIou
        done := true }
  have hdone := f12 rfl
  rw [hdone] at hstep
  exact ⟨_, _, hstep, hdone, f6, f7, f4, f5, f8⟩

/-- Witness for C7 at a concrete input. -/
theorem c7_witness :
    ∃ s' r, step { cfg_eval with playout_episode := false } s_base
        (trigger_action { cfg_eval with playout_episode := false }) = .ok (s', r, true) ∧
      s'.done = true ∧
      s'.episode_pred_bboxes = s_base.episode_pred_bboxes ++ [s_base.bbox] ∧
      s'.num_triggers_used = s_base.num_triggers_used + 1 ∧
      s'.episode_image = s_base.episode_image ∧
      s'.episode_masked_indices = s_base.episode_masked_indices ∧
      s'.bbox = s_base.bbox :=
  c7_trigger_ends_episode { cfg_eval with playout_episode := false } s_base rfl

/-- Claim C8: a `step` call with an action id outside `[0, |actionSet|)`
fails with the invalid-action condition (the assertion precedes every state
mutation, so no successor state is produced and the episode state is
untouched). -/
theorem c8_invalid_action_rejected (cfg : EnvConfig) (s : EnvState) (action : ℕ)
    (h : numActions cfg ≤ action) :
    step cfg s action = .error EnvError.invalidAction := by
  unfold step
  rw [if_neg (by omega)]

/-- Witness for C8 at a concrete input: action id 5 on an action set of
size 3. -/
theorem c8_witness :
    numActions cfg_train ≤ 5 ∧
      step cfg_train s_base 5 = .error EnvError.invalidAction :=
  ⟨by decide, c8_invalid_action_rejected cfg_train s_base 5 (by decide)⟩

/-- Claim C9: within an episode, `max_iou` never decreases across a
successful `step` call: the updated value is `max iou max_iou` of the
post-reward state, and nothing later in the step touches it. -/
theorem c9_max_iou_monotone (cfg : EnvConfig) (s : EnvState) (action : ℕ)
    (s' : EnvState) (r : ℚ) (d : Bool)
    (hstep : step cfg s action = .ok (s', r, d)) :
    s.max_iou ≤ s'.max_iou := by
  obtain ⟨hlt, s2, s3, hd, hr, hs', -⟩ := step_ok_elim cfg s action s' r d hstep
  have h2 : s2.max_iou = s.max_iou := by
    unfold dispatch_action at hd
    split at hd
    · simp only [Except.ok.injEq] at hd
      subst hd
      rfl
    · split at hd
      · exact ((trigger_ok_fields _ _ _ hd).2.2.1).trans rfl
      · simp only [Except.ok.injEq] at hd
        subst hd
        rfl
  have h3 : s3.max_iou = s2.max_iou := (calculate_reward_preserves _ _ _ _ _ hr).1
  have h4 : s'.max_iou = max s3.iou s3.max_iou := by
    rw [hs']
    exact (step_tail_fields _ _ _).1
  rw [h4, h3, h2]
  exact le_max_right _ _

/-- Witness for C9 at a concrete input. -/
theorem c9_witness :
    ∃ s' r d, step { cfg_eval with playout_episode := false } s_base
        (trigger_action { cfg_eval with playout_episode := false }) = .ok (s', r, d) ∧
      s_base.max_iou ≤ s'.max_iou := by
  obtain ⟨s', r, d, h⟩ :=
    step_trigger_noplay { cfg_eval with playout_episode := false } s_base rfl
  exact ⟨s', r, d, h, c9_max_iou_monotone _ _ _ _ _ _ h⟩

/-! ### Claims C4 and C6 -/

/-- Claim C4: with the termination action enabled and a nonempty ground-truth
collection, a terminate step succeeds and rewards `-ETA_TERMINATION` whenever
`numTriggersUsed / |groundTruthBoxes| ≠ 1`, and otherwise
`ETA_TERMINATION + currentStep * DURATION_PENALTY` (with `currentStep` the
just-incremented counter at reward time). -/
theorem c4_termination_reward (cfg : EnvConfig) (s : EnvState)
    (hterm : cfg.has_termination_action = true)
    (hne : s.episode_true_bboxes ≠ []) :
    ∃ s' d, step cfg s (terminate_action cfg) = .ok
      (s',
       if ((s.num_triggers_used : ℚ) / (s.episode_true_bboxes.length : ℚ)) ≠ 1
       then -ETA_TERMINATION
       else ETA_TERMINATION + ((s.current_step + 1 : ℕ) : ℚ) * DURATION_PENALTY,
       d) := by
  have hd := dispatch_terminate cfg { s with current_step := s.current_step + 1 }
  have hlen : ¬(terminate { s with current_step := s.current_step + 1
      }).episode_true_bboxes.length = 0 :=
    fun h => hne (List.length_eq_zero.mp h)
  have hr := calculate_reward_terminate cfg
    (terminate { s with current_step := s.current_step + 1 }) hterm hlen
  have hstep := step_intro cfg s (terminate_action cfg) _ _ _
    (terminate_action_lt cfg hterm) hd hr
  exact ⟨_, _, hstep⟩

/-- Witness for C4 at the claim's concrete numbers: 2 ground-truth boxes;
one trigger used and terminate arriving as step 5 rewards `-10.0`; both
triggers used and terminate arriving as step 5 rewards `10.15`. -/
theorem c4_witness :
    (∃ s' d, step cfg_train { s_base with num_triggers_used := 1, current_step := 4 }
        (terminate_action cfg_train) = .ok (s', -10, d)) ∧
    (∃ s' d, step cfg_train { s_base with num_triggers_used := 2, current_step := 4 }
        (terminate_action cfg_train) = .ok (s', 1015 / 100, d)) := by
  constructor
  · obtain ⟨s', d, h⟩ := c4_termination_reward cfg_train
      { s_base with num_triggers_used := 1, current_step := 4 } rfl (by simp [s_base])
    norm_num [s_base, ETA_TERMINATION, DURATION_PENALTY] at h
    exact ⟨s', d, h⟩
  · obtain ⟨s', d, h⟩ := c4_termination_reward cfg_train
      { s_base with num_triggers_used := 2, current_step := 4 } rfl (by simp [s_base])
    norm_num [s_base, ETA_TERMINATION, DURATION_PENALTY] at h
    refine ⟨s', d, ?_⟩
    rw [show (1015 / 100 : ℚ) = 203 / 20 by norm_num]
    exact h

/-- Claim C6 (the code at the claim's failing input): with the termination
action enabled and an empty ground-truth collection, a terminate step
performs the division `numTriggersUsed / 0` and raises `ZeroDivisionError`;
there is no prior guard surfacing an `EmptyGroundTruth` configuration
error. -/
theorem c6_terminate_empty_ground_truth (cfg : EnvConfig) (s : EnvState)
    (hterm : cfg.has_termination_action = true)
    (hemp : s.episode_true_bboxes = []) :
    step cfg s (terminate_action cfg) = .error EnvError.zeroDivision := by
  unfold step
  rw [if_pos (terminate_action_lt cfg hterm), dispatch_terminate]
  dsimp only
  rw [calculate_reward_terminate_empty cfg _ hterm (by simp [terminate, hemp])]

/-- Witness for C6 at a concrete input. -/
theorem c6_witness :
    step cfg_train { s_base with episode_true_bboxes := [] } (terminate_action cfg_train)
      = .error EnvError.zeroDivision :=
  c6_terminate_empty_ground_truth cfg_train { s_base with episode_true_bboxes := [] } rfl rfl

/-! ### Claim C10 -/

lemma unmasked_go_nil_masked (n : ℕ) (l : List Box) : unmasked_go [] n l = l := by
  induction l generalizing n with
  | nil => rfl
  | cons b rest ih => simp [unmasked_go, ih]

lemma trigger_eval (cfg : EnvConfig) (s : EnvState) (hmode : cfg.mode ≠ "train")
    (hpl : cfg.playout_episode = true) :
    trigger cfg s = .ok (transformer_reset cfg (create_ior_mark cfg
      { s with
        num_triggers_used := s.num_triggers_used + 1
        episode_pred_bboxes := s.episode_pred_bboxes ++ [s.bbox]
        post_step_handler := some PostStepHandler.registerTriggerIou } s.bbox)) := by
  unfold trigger
  dsimp only
  rw [if_neg (by simp [hpl]), if_neg hmode]

lemma trigger_masked_preserved (cfg : EnvConfig) (s st : EnvState)
    (hmode : cfg.mode ≠ "train") (htr : trigger cfg s = .ok st) :
    st.episode_masked_indices = s.episode_masked_indices := by
  cases hp : cfg.playout_episode with
  | false =>
    rw [trigger_noplay cfg s hp] at htr
    simp only [Except.ok.injEq] at htr
    subst htr
    rfl
  | true =>
    rw [trigger_eval cfg s hmode hp] at htr
    simp only [Except.ok.injEq] at htr
    subst htr
    rfl

lemma reset_no_premask (cfg : EnvConfig) (t : EnvState) (image_index : ℕ) (rand : ℕ → ℚ)
    (s₀ : EnvState) (hmode : cfg.mode ≠ "train")
    (hreset : reset cfg t image_index rand = .ok s₀) :
    s₀.episode_masked_indices = [] := by
  unfold reset at hreset
  cases himg : cfg.images.get? image_index with
  | none => rw [himg] at hreset; exact absurd hreset (by simp)
  | some img =>
    cases hbb : cfg.true_bboxes.get? image_index with
    | none => rw [himg, hbb] at hreset; exact absurd hreset (by simp)
    | some raw_bboxes =>
      rw [himg, hbb] at hreset
      dsimp only at hreset
      rw [if_neg (fun hc => hmode hc.1)] at hreset
      split at hreset
      case h_1 => exact absurd hreset (by simp)
      case h_2 best hbest =>
        simp only [Except.ok.injEq] at hreset
        subst hreset
        rfl

lemma step_preserves_masked_eval (cfg : EnvConfig) (u u' : EnvState) (a : ℕ) (r : ℚ)
    (d : Bool) (hmode : cfg.mode ≠ "train")
    (hstep : step cfg u a = .ok (u', r, d)) :
    u'.episode_masked_indices = u.episode_masked_indices := by
  obtain ⟨hlt, s2, s3, hd, hr, hs', -⟩ := step_ok_elim cfg u a u' r d hstep
  have h2 : s2.episode_masked_indices = u.episode_masked_indices := by
    unfold dispatch_action at hd
    split at hd
    · simp only [Except.ok.injEq] at hd
      subst hd
      rfl
    · split at hd
      · exact (trigger_masked_preserved _ _ _ hmode hd).trans rfl
      · simp only [Except.ok.injEq] at hd
        subst hd
        rfl
  have h3 := (calculate_reward_preserves _ _ _ _ _ hr).2.2.2.1
  have h4 := (step_tail_fields cfg a s3).2.2.2.2.1
  rw [hs', h4, h3, h2]

lemma compute_best_iou_empty (s : EnvState) (h : s.episode_true_bboxes = []) :
    compute_best_iou s = .ok 0 := by
  unfold compute_best_iou episode_true_bboxes_unmasked
  rw [h]
  rfl

lemma dispatch_transformer (cfg : EnvConfig) (s : EnvState) (a : ℕ)
    (h : a < cfg.transformer.numActions) :
    dispatch_action cfg s a = .ok { s with bbox := cfg.transformer.applyAction a s.bbox } := by
  unfold dispatch_action
  rw [if_pos h]

lemma calculate_reward_transformer (cfg : EnvConfig) (s : EnvState) (a : ℕ) (best : ℚ)
    (hnt : is_termination cfg a = false) (htr : is_trigger cfg a = false)
    (hbest : compute_best_iou s = .ok best) :
    calculate_reward cfg s a = .ok ({ s with iou := best }, 0) := by
  unfold calculate_reward
  rw [if_neg (by simp [hnt]), if_neg (by simp [htr]), hbest]

lemma step_transformer_exists_empty (cfg : EnvConfig) (u : EnvState) (a : ℕ)
    (hlt : a < cfg.transformer.numActions)
    (hnt : is_termination cfg a = false) (htr : is_trigger cfg a = false)
    (hemp : u.episode_true_bboxes = []) :
    ∃ u' r d, step cfg u a = .ok (u', r, d) := by
  have hd := dispatch_transformer cfg { u with current_step := u.current_step + 1 } a hlt
  have hbest := compute_best_iou_empty
    { u with
      current_step := u.current_step + 1
      bbox := cfg.transformer.applyAction a u.bbox } hemp
  have hr := calculate_reward_transformer cfg _ a 0 hnt htr hbest
  exact ⟨_, _, _, step_intro cfg u a _ _ _ (by simp only [numActions]; omega) hd hr⟩

lemma step_trigger_eval_exists (cfg : EnvConfig) (s : EnvState)
    (hmode : cfg.mode ≠ "train") (hpl : cfg.playout_episode = true) :
    ∃ s' r d, step cfg s (trigger_action cfg) = .ok (s', r, d) := by
  have hd := (dispatch_trigger cfg { s with current_step := s.current_step + 1 }).trans
    (trigger_eval cfg { s with current_step := s.current_step + 1 } hmode hpl)
  exact ⟨_, _, _, step_intro cfg s (trigger_action cfg) _ _ _ (trigger_action_lt cfg) hd
    (calculate_reward_trigger cfg _)⟩

lemma reset_ok_empty (cfg : EnvConfig) (t : EnvState) (i : ℕ) (rand : ℕ → ℚ) (img : Image)
    (himg : cfg.images.get? i = some img) (hbb : cfg.true_bboxes.get? i = some [])
    (hnp : ¬(cfg.mode = "train" ∧ cfg.premasking)) (hsc : cfg.bbox_scaling = none) :
    ∃ s₀, reset cfg t i rand = .ok s₀ ∧ s₀.episode_true_bboxes = [] := by
  unfold reset
  rw [himg, hbb]
  dsimp only
  rw [hsc]
  dsimp only
  rw [if_neg hnp]
  dsimp only
  rw [compute_best_iou_empty _ rfl]
  exact ⟨_, rfl, rfl⟩

/-- Claim C10: in evaluation mode (`mode ≠ "train"`) with
`playout_episode = true`: premasking is skipped at reset (the fresh episode
has no masked indices); no step — in particular no trigger — ever adds a
masked index, so the masked set stays empty all episode; a trigger masks the
image pixels at the current window itself; and with no masked indices the
best-IoU computation ranges over every ground-truth box. -/
theorem c10_eval_mode_masking (cfg : EnvConfig) (t s₀ u u' s s' : EnvState)
    (image_index : ℕ) (rand : ℕ → ℚ) (a : ℕ) (r r₂ : ℚ) (d d₂ : Bool)
    (hmode : cfg.mode ≠ "train") (hpl : cfg.playout_episode = true)
    (hreset : reset cfg t image_index rand = .ok s₀)
    (hstep : step cfg u a = .ok (u', r₂, d₂))
    (htrig : step cfg s (trigger_action cfg) = .ok (s', r, d))
    (hemp : u.episode_masked_indices = []) :
    s₀.episode_masked_indices = [] ∧
    u'.episode_masked_indices = [] ∧
    s'.episode_masked_indices = s.episode_masked_indices ∧
    s'.episode_image = Image.masked s.episode_image s.bbox cfg.ior_marker_type ∧
    compute_best_iou s₀ = best_iou_go s₀.bbox s₀.episode_true_bboxes 0 := by
  have hmask0 := reset_no_premask cfg t image_index rand s₀ hmode hreset
  refine ⟨hmask0, ?_, ?_, ?_, ?_⟩
  · rw [step_preserves_masked_eval cfg u u' a r₂ d₂ hmode hstep, hemp]
  · exact step_preserves_masked_eval cfg s s' (trigger_action cfg) r d hmode htrig
  · obtain ⟨hlt, s2, s3, hd, hr, hs', -⟩ := step_ok_elim cfg s _ s' r d htrig
    rw [dispatch_trigger, trigger_eval cfg _ hmode hpl] at hd
    simp only [Except.ok.injEq] at hd
    have himg2 : s2.episode_image =
        Image.masked s.episode_image s.bbox cfg.ior_marker_type := by
      rw [← hd]
      rfl
    have h3 := (calculate_reward_preserves _ _ _ _ _ hr).2.2.1
    have h4 := (step_tail_fields cfg (trigger_action cfg) s3).2.2.2.1
    rw [hs', h4, h3, himg2]
  · unfold compute_best_iou episode_true_bboxes_unmasked
    rw [hmask0, unmasked_go_nil_masked]

/-- Witness for C10 at a concrete input: a reset, a transformer step and a
trigger step on the evaluation configuration over an image with no
ground-truth boxes. -/
theorem c10_witness :
    ∃ s₀ u' s' r r₂ d d₂,
      reset cfg_empty s_base 0 (fun _ => 1) = .ok s₀ ∧
      step cfg_empty s₀ 0 = .ok (u', r₂, d₂) ∧
      step cfg_empty s₀ (trigger_action cfg_empty) = .ok (s', r, d) ∧
      s₀.episode_masked_indices = [] ∧
      u'.episode_masked_indices = [] ∧
      s'.episode_masked_indices = s₀.episode_masked_indices ∧
      s'.episode_image = Image.masked s₀.episode_image s₀.bbox cfg_empty.ior_marker_type ∧
      compute_best_iou s₀ = best_iou_go s₀.bbox s₀.episode_true_bboxes 0 := by
  have hmode : cfg_empty.mode ≠ "train" := by decide
  obtain ⟨s₀, hreset, hbb0⟩ := reset_ok_empty cfg_empty s_base 0 (fun _ => 1)
    (Image.source 100 100 0) rfl rfl (fun hc => by exact absurd hc.1 hmode) rfl
  have hmask0 := reset_no_premask cfg_empty s_base 0 (fun _ => 1) s₀ hmode hreset
  obtain ⟨u', r₂, d₂, hstep⟩ := step_transformer_exists_empty cfg_empty s₀ 0
    (by decide) (by decide) (by decide) hbb0
  obtain ⟨s', r, d, htrig⟩ := step_trigger_eval_exists cfg_empty s₀ hmode rfl
  obtain ⟨m1, m2, m3, m4, m5⟩ := c10_eval_mode_masking cfg_empty s_base s₀ s₀ u' s₀ s'
    0 (fun _ => 1) 0 r r₂ d d₂ hmode rfl hreset hstep htrig hmask0
  exact ⟨s₀, u', s', r, r₂, d, d₂, hreset, hstep, htrig, m1, m2, m3, m4, m5⟩

/-! ### Claim C1 -/

lemma closest_concrete (s : EnvState) (hb : s.bbox = ⟨0, 0, 1, 1⟩)
    (hm : s.episode_masked_indices = [])
    (ht : s.episode_true_bboxes = [⟨2, 2, 3, 3⟩, ⟨4, 4, 5, 5⟩]) :
    closest_unmasked_true_bbox s = .ok (some 1, some ⟨4, 4, 5, 5⟩) := by
  unfold closest_unmasked_true_bbox
  rw [hb, hm, ht]
  norm_num [closest_loop, compute_iou_eq, compute_intersection, Box.area, iouVal,
    min_def, max_def]

lemma c1_counterexample_core :
    ∃ st, trigger cfg_train { s_base with current_step := s_base.current_step + 1 }
        = .ok st ∧
      st.episode_masked_indices = [1] := by
  unfold trigger
  dsimp only
  rw [if_neg (by decide), if_pos (show cfg_train.mode = "train" by rfl),
    if_pos (by decide), closest_concrete _ rfl rfl rfl]
  exact ⟨_, rfl, rfl⟩

/-- Claim C1 counterexample: in training mode with playout and two unmasked
ground-truth boxes both attaining the maximal IoU (here 0, the current
window being disjoint from both), the trigger step masks index 1, the LAST
unmasked box, not the earliest index 0 — refuting the claimed
earliest-index tie-break. -/
theorem c1_counterexample :
    ∃ s' r d, step cfg_train s_base (trigger_action cfg_train) = .ok (s', r, d) ∧
      s'.episode_masked_indices = [1] ∧
      (0 : ℕ) ∉ s_base.episode_masked_indices ∧
      compute_iou s_base.bbox ⟨2, 2, 3, 3⟩ = .ok 0 ∧
      compute_iou s_base.bbox ⟨4, 4, 5, 5⟩ = .ok 0 := by
  obtain ⟨st, htr, hmask⟩ := c1_counterexample_core
  have hd := (dispatch_trigger cfg_train
    { s_base with current_step := s_base.current_step + 1 }).trans htr
  have hstep := step_intro cfg_train s_base (trigger_action cfg_train) st st _
    (trigger_action_lt cfg_train) hd (calculate_reward_trigger cfg_train st)
  refine ⟨_, _, _, hstep, ?_, by decide, ?_, ?_⟩
  · rw [(step_tail_fields cfg_train (trigger_action cfg_train) st).2.2.2.2.1, hmask]
  · rw [compute_iou_eq]
    norm_num [compute_intersection, Box.area, iouVal, s_base, min_def, max_def]
  · rw [compute_iou_eq]
    norm_num [compute_intersection, Box.area, iouVal, s_base, min_def, max_def]

/-- Characterization of the selection loop of `closest_unmasked_true_bbox`
with a non-`None` accumulator `(iou of b, i, b)`: the result is an unmasked
entry attaining the running maximum; a positive final maximum is reached at
the earliest position, while a zero final maximum means every unmasked entry
replaced the accumulator, so the last one wins. -/
lemma closest_loop_some_char (bbox : Box) (masked : List ℕ) (hpos : bbox.posArea) :
    ∀ (l : List Box) (n i : ℕ) (b : Box),
      (∀ c ∈ l, c.invariant) → b.invariant → i < n →
      ∃ j c, closest_loop bbox masked n l (some (iouVal bbox b), some i, some b)
          = .ok (some j, some c) ∧ c.invariant ∧
        ((j = i ∧ c = b) ∨ (∃ k, l.get? k = some c ∧ j = n + k ∧ j ∉ masked)) ∧
        iouVal bbox b ≤ iouVal bbox c ∧
        (∀ k e, l.get? k = some e → (n + k) ∉ masked → iouVal bbox e ≤ iouVal bbox c) ∧
        (0 < iouVal bbox c →
          (iouVal bbox c = iouVal bbox b → j = i ∧ c = b) ∧
          (∀ k e, l.get? k = some e → (n + k) ∉ masked →
            iouVal bbox e = iouVal bbox c → j ≤ n + k)) ∧
        (iouVal bbox c = 0 →
          i ≤ j ∧ ∀ k e, l.get? k = some e → (n + k) ∉ masked → n + k ≤ j)
  | [], n, i, b, hl, hb, hin => by
    refine ⟨i, b, rfl, hb, Or.inl ⟨rfl, rfl⟩, le_refl _, ?_, ?_, ?_⟩
    · intro k e hget
      simp at hget
    · exact fun _ => ⟨fun _ => ⟨rfl, rfl⟩, fun k e hget => by simp at hget⟩
    · exact fun _ => ⟨le_refl i, fun k e hget => by simp at hget⟩
  | d :: rest, n, i, b, hl, hb, hin => by
    have hd_inv : d.invariant := hl d (List.mem_cons_self d rest)
    have hrest : ∀ c ∈ rest, c.invariant := fun c hc => hl c (List.mem_cons_of_mem d hc)
    by_cases hn : n ∈ masked
    · -- the head index is masked and is skipped
      obtain ⟨j, c, heq, hcinv, hmem, hge, hmax, hposc, hzeroc⟩ :=
        closest_loop_some_char bbox masked hpos rest (n + 1) i b hrest hb
          (Nat.lt_succ_of_lt hin)
      have hloop : closest_loop bbox masked n (d :: rest)
          (some (iouVal bbox b), some i, some b)
          = closest_loop bbox masked (n + 1) rest
            (some (iouVal bbox b), some i, some b) := by
        simp only [closest_loop, if_pos hn]
      refine ⟨j, c, hloop.trans heq, hcinv, ?_, hge, ?_, ?_, ?_⟩
      · rcases hmem with h | ⟨k, hget, hj, hjm⟩
        · exact Or.inl h
        · exact Or.inr ⟨k + 1, by simpa using hget, by omega, hjm⟩
      · intro k e hget hkm
        cases k with
        | zero => exact absurd hn (by simpa using hkm)
        | succ k =>
          refine hmax k e (by simpa using hget) ?_
          have harith : n + 1 + k = n + (k + 1) := by omega
          rw [harith]
          exact hkm
      · intro hcpos
        refine ⟨(hposc hcpos).1, ?_⟩
        intro k e hget hkm hiou
        cases k with
        | zero => exact absurd hn (by simpa using hkm)
        | succ k =>
          have harith : n + 1 + k = n + (k + 1) := by omega
          have := (hposc hcpos).2 k e (by simpa using hget) (by rw [harith]; exact hkm) hiou
          omega
      · intro hc0
        refine ⟨(hzeroc hc0).1, ?_⟩
        intro k e hget hkm
        cases k with
        | zero => exact absurd hn (by simpa using hkm)
        | succ k =>
          have harith : n + 1 + k = n + (k + 1) := by omega
          have := (hzeroc hc0).2 k e (by simpa using hget) (by rw [harith]; exact hkm)
          omega
    · -- the head index is unmasked: the replacement test runs
      by_cases hrep : iouVal bbox b = 0 ∨ iouVal bbox d > iouVal bbox b
      · -- the accumulator is replaced by the head
        obtain ⟨j, c, heq, hcinv, hmem, hge, hmax, hposc, hzeroc⟩ :=
          closest_loop_some_char bbox masked hpos rest (n + 1) n d hrest hd_inv
            (Nat.lt_succ_self n)
        have hloop : closest_loop bbox masked n (d :: rest)
            (some (iouVal bbox b), some i, some b)
            = closest_loop bbox masked (n + 1) rest
              (some (iouVal bbox d), some n, some d) := by
          simp only [closest_loop, if_neg hn]
          rw [compute_iou_ok bbox d hpos hd_inv]
          dsimp only
          rw [if_pos hrep]
        have hbd : iouVal bbox b ≤ iouVal bbox d := by
          rcases hrep with h0 | hgt
          · rw [h0]
            exact iouVal_nonneg bbox d hpos hd_inv
          · exact le_of_lt hgt
        refine ⟨j, c, hloop.trans heq, hcinv, ?_, hbd.trans hge, ?_, ?_, ?_⟩
        · rcases hmem with ⟨hj, hc⟩ | ⟨k, hget, hj, hjm⟩
          · exact Or.inr ⟨0, by simpa using hc.symm ▸ rfl, by omega, by rw [hj]; simpa using hn⟩
          · exact Or.inr ⟨k + 1, by simpa using hget, by omega, hjm⟩
        · intro k e hget hkm
          cases k with
          | zero =>
            have he : d = e := by simpa using hget
            rw [← he]
            exact hge
          | succ k =>
            refine hmax k e (by simpa using hget) ?_
            have harith : n + 1 + k = n + (k + 1) := by omega
            rw [harith]
            exact hkm
        · intro hcpos
          constructor
          · intro hcb
            exfalso
            have h1 : iouVal bbox d ≤ iouVal bbox c := hge
            rcases hrep with h0 | hgt
            · rw [hcb, h0] at hcpos
              exact lt_irrefl 0 hcpos
            · rw [hcb] at h1
              exact absurd hgt (not_lt.mpr h1)
          · intro k e hget hkm hiou
            cases k with
            | zero =>
              have he : d = e := by simpa using hget
              have := (hposc hcpos).1 (by rw [← hiou, ← he])
              omega
            | succ k =>
              have harith : n + 1 + k = n + (k + 1) := by omega
              have := (hposc hcpos).2 k e (by simpa using hget)
                (by rw [harith]; exact hkm) hiou
              omega
        · intro hc0
          obtain ⟨hnj, hrest0⟩ := hzeroc hc0
          refine ⟨by omega, ?_⟩
          intro k e hget hkm
          cases k with
          | zero => omega
          | succ k =>
            have harith : n + 1 + k = n + (k + 1) := by omega
            have := hrest0 k e (by simpa using hget) (by rw [harith]; exact hkm)
            omega
      · -- the accumulator is kept
        have hb0 : ¬iouVal bbox b = 0 := fun h => hrep (Or.inl h)
        have hdb : iouVal bbox d ≤ iouVal bbox b := by
          by_contra hlt
          exact hrep (Or.inr (lt_of_not_le hlt))
        obtain ⟨j, c, heq, hcinv, hmem, hge, hmax, hposc, hzeroc⟩ :=
          closest_loop_some_char bbox masked hpos rest (n + 1) i b hrest hb
            (Nat.lt_succ_of_lt hin)
        have hloop : closest_loop bbox masked n (d :: rest)
            (some (iouVal bbox b), some i, some b)
            = closest_loop bbox masked (n + 1) rest
              (some (iouVal bbox b), some i, some b) := by
          simp only [closest_loop, if_neg hn]
          rw [compute_iou_ok bbox d hpos hd_inv]
          dsimp only
          rw [if_neg hrep]
        refine ⟨j, c, hloop.trans heq, hcinv, ?_, hge, ?_, ?_, ?_⟩
        · rcases hmem with h | ⟨k, hget, hj, hjm⟩
          · exact Or.inl h
          · exact Or.inr ⟨k + 1, by simpa using hget, by omega, hjm⟩
        · intro k e hget hkm
          cases k with
          | zero =>
            have he : d = e := by simpa using hget
            rw [← he]
            exact hdb.trans hge
          | succ k =>
            refine hmax k e (by simpa using hget) ?_
            have harith : n + 1 + k = n + (k + 1) := by omega
            rw [harith]
            exact hkm
        · intro hcpos
          refine ⟨(hposc hcpos).1, ?_⟩
          intro k e hget hkm hiou
          cases k with
          | zero =>
            have he : d = e := by simpa using hget
            have hcb : iouVal bbox c = iouVal bbox b := by
              have h1 : iouVal bbox e ≤ iouVal bbox b := by rw [← he]; exact hdb
              rw [hiou] at h1
              exact le_antisymm h1 hge
            have := (hposc hcpos).1 hcb
            omega
          | succ k =>
            have harith : n + 1 + k = n + (k + 1) := by omega
            have := (hposc hcpos).2 k e (by simpa using hget)
              (by rw [harith]; exact hkm) hiou
            omega
        · intro hc0
          exfalso
          have h1 : iouVal bbox b ≤ 0 := hc0 ▸ hge
          have h2 : 0 ≤ iouVal bbox b := iouVal_nonneg bbox b hpos hb
          exact hb0 (le_antisymm h1 h2)

/-- Characterization of the full scan (accumulator starting at `None`):
assuming some unmasked entry exists, the scan selects an unmasked entry with
the maximal IoU; a positive maximum is attained first at the selected
position, while a zero maximum selects the last unmasked position. -/
lemma closest_loop_none_char (bbox : Box) (masked : List ℕ) (hpos : bbox.posArea) :
    ∀ (l : List Box) (n : ℕ),
      (∀ c ∈ l, c.invariant) →
      (∃ k e, l.get? k = some e ∧ (n + k) ∉ masked) →
      ∃ j c, closest_loop bbox masked n l (none, none, none) = .ok (some j, some c) ∧
        (∃ k, l.get? k = some c ∧ j = n + k ∧ j ∉ masked) ∧
        (∀ k e, l.get? k = some e → (n + k) ∉ masked → iouVal bbox e ≤ iouVal bbox c) ∧
        (0 < iouVal bbox c →
          ∀ k e, l.get? k = some e → (n + k) ∉ masked →
            iouVal bbox e = iouVal bbox c → j ≤ n + k) ∧
        (iouVal bbox c = 0 →
          ∀ k e, l.get? k = some e → (n + k) ∉ masked → n + k ≤ j)
  | [], n, hl, hex => by
    obtain ⟨k, e, hget, -⟩ := hex
    simp at hget
  | d :: rest, n, hl, hex => by
    have hd_inv : d.invariant := hl d (List.mem_cons_self d rest)
    have hrest : ∀ c ∈ rest, c.invariant := fun c hc => hl c (List.mem_cons_of_mem d hc)
    by_cases hn : n ∈ masked
    · -- the head index is masked and is skipped
      have hex' : ∃ k e, rest.get? k = some e ∧ (n + 1 + k) ∉ masked := by
        obtain ⟨k, e, hget, hkm⟩ := hex
        cases k with
        | zero => exact absurd hn (by simpa using hkm)
        | succ k =>
          refine ⟨k, e, by simpa using hget, ?_⟩
          have harith : n + 1 + k = n + (k + 1) := by omega
          rw [harith]
          exact hkm
      obtain ⟨j, c, heq, hmem, hmax, hposc, hzeroc⟩ :=
        closest_loop_none_char bbox masked hpos rest (n + 1) hrest hex'
      have hloop : closest_loop bbox masked n (d :: rest) (none, none, none)
          = closest_loop bbox masked (n + 1) rest (none, none, none) := by
        simp only [closest_loop, if_pos hn]
      refine ⟨j, c, hloop.trans heq, ?_, ?_, ?_, ?_⟩
      · obtain ⟨k, hget, hj, hjm⟩ := hmem
        exact ⟨k + 1, by simpa using hget, by omega, hjm⟩
      · intro k e hget hkm
        cases k with
        | zero => exact absurd hn (by simpa using hkm)
        | succ k =>
          refine hmax k e (by simpa using hget) ?_
          have harith : n + 1 + k = n + (k + 1) := by omega
          rw [harith]
          exact hkm
      · intro hcpos k e hget hkm hiou
        cases k with
        | zero => exact absurd hn (by simpa using hkm)
        | succ k =>
          have harith : n + 1 + k = n + (k + 1) := by omega
          have := hposc hcpos k e (by simpa using hget) (by rw [harith]; exact hkm) hiou
          omega
      · intro hc0 k e hget hkm
        cases k with
        | zero => exact absurd hn (by simpa using hkm)
        | succ k =>
          have harith : n + 1 + k = n + (k + 1) := by omega
          have := hzeroc hc0 k e (by simpa using hget) (by rw [harith]; exact hkm)
          omega
    · -- the head index is unmasked: it becomes the first accumulator
      obtain ⟨j, c, heq, hcinv, hmem, hge, hmax, hposc, hzeroc⟩ :=
        closest_loop_some_char bbox masked hpos rest (n + 1) n d hrest hd_inv
          (Nat.lt_succ_self n)
      have hloop : closest_loop bbox masked n (d :: rest) (none, none, none)
          = closest_loop bbox masked (n + 1) rest
            (some (iouVal bbox d), some n, some d) := by
        simp only [closest_loop, if_neg hn]
        rw [compute_iou_ok bbox d hpos hd_inv]
      refine ⟨j, c, hloop.trans heq, ?_, ?_, ?_, ?_⟩
      · rcases hmem with ⟨hj, hc⟩ | ⟨k, hget, hj, hjm⟩
        · exact ⟨0, by rw [hc]; rfl, by omega, by rw [hj]; exact hn⟩
        · exact ⟨k + 1, by simpa using hget, by omega, hjm⟩
      · intro k e hget hkm
        cases k with
        | zero =>
          have he : d = e := by simpa using hget
          rw [← he]
          exact hge
        | succ k =>
          refine hmax k e (by simpa using hget) ?_
          have harith : n + 1 + k = n + (k + 1) := by omega
          rw [harith]
          exact hkm
      · intro hcpos k e hget hkm hiou
        cases k with
        | zero =>
          have he : d = e := by simpa using hget
          have := (hposc hcpos).1 (by rw [← hiou, ← he])
          omega
        | succ k =>
          have harith : n + 1 + k = n + (k + 1) := by omega
          have := (hposc hcpos).2 k e (by simpa using hget)
            (by rw [harith]; exact hkm) hiou
          omega
      · intro hc0 k e hget hkm
        obtain ⟨hnj, hrest0⟩ := hzeroc hc0
        cases k with
        | zero => omega
        | succ k =>
          have harith : n + 1 + k = n + (k + 1) := by omega
          have := hrest0 k e (by simpa using hget) (by rw [harith]; exact hkm)
          omega

lemma unmasked_nonempty_exists (masked : List ℕ) :
    ∀ (l : List Box) (n : ℕ), unmasked_go masked n l ≠ [] →
      ∃ k e, l.get? k = some e ∧ (n + k) ∉ masked
  | [], n, h => absurd rfl h
  | d :: rest, n, h => by
    by_cases hn : n ∈ masked
    · have h' : unmasked_go masked (n + 1) rest ≠ [] := by
        simpa [unmasked_go, if_pos hn] using h
      obtain ⟨k, e, hget, hkm⟩ := unmasked_nonempty_exists masked rest (n + 1) h'
      refine ⟨k + 1, e, by simpa using hget, ?_⟩
      have harith : n + (k + 1) = n + 1 + k := by omega
      rw [harith]
      exact hkm
    · exact ⟨0, d, rfl, by simpa using hn⟩

lemma trigger_train (cfg : EnvConfig) (s : EnvState) (index : ℕ) (box : Box)
    (hmode : cfg.mode = "train") (hpl : cfg.playout_episode = true)
    (hlen : (episode_true_bboxes_unmasked s).length > 0)
    (hclosest : closest_unmasked_true_bbox
      { s with
        num_triggers_used := s.num_triggers_used + 1
        episode_pred_bboxes := s.episode_pred_bboxes ++ [s.bbox]
        post_step_handler := some PostStepHandler.registerTriggerIou }
      = .ok (some index, some box)) :
    trigger cfg s = .ok (transformer_reset cfg
      { create_ior_mark cfg
          { s with
            num_triggers_used := s.num_triggers_used + 1
            episode_pred_bboxes := s.episode_pred_bboxes ++ [s.bbox]
            post_step_handler := some PostStepHandler.registerTriggerIou } box
        with episode_masked_indices := s.episode_masked_indices ++ [index] }) := by
  unfold trigger
  dsimp only
  rw [if_neg (by simp [hpl]), if_pos hmode,
    if_pos (show (episode_true_bboxes_unmasked
      { s with
        num_triggers_used := s.num_triggers_used + 1
        episode_pred_bboxes := s.episode_pred_bboxes ++ [s.bbox]
        post_step_handler := some PostStepHandler.registerTriggerIou }).length > 0
      from hlen),
    hclosest]
  rfl

/-- Claim C1 (amended): on a trigger step in training mode with
`playoutEpisode = true`, at least one unmasked ground-truth box, a
positive-area current window and invariant ground-truth boxes, the index
added to `maskedIndices` is that of an unmasked ground-truth box attaining
the greatest IoU against the current window; when that greatest IoU is
positive, the earliest index attaining it is selected, but when every
unmasked box has IoU 0 the LAST unmasked index is selected (Python's
`not max_iou` truthiness treats a running maximum of `0.0` like `None`), not
the earliest. -/
theorem c1_masking_selection (cfg : EnvConfig) (s : EnvState)
    (hmode : cfg.mode = "train") (hpl : cfg.playout_episode = true)
    (hpos : s.bbox.posArea)
    (hinv : ∀ c ∈ s.episode_true_bboxes, c.invariant)
    (hne : episode_true_bboxes_unmasked s ≠ []) :
    ∃ s' r d j c, step cfg s (trigger_action cfg) = .ok (s', r, d) ∧
      s'.episode_masked_indices = s.episode_masked_indices ++ [j] ∧
      s.episode_true_bboxes.get? j = some c ∧
      j ∉ s.episode_masked_indices ∧
      (∀ k e, s.episode_true_bboxes.get? k = some e → k ∉ s.episode_masked_indices →
        iouVal s.bbox e ≤ iouVal s.bbox c) ∧
      (0 < iouVal s.bbox c →
        ∀ k e, s.episode_true_bboxes.get? k = some e → k ∉ s.episode_masked_indices →
          iouVal s.bbox e = iouVal s.bbox c → j ≤ k) ∧
      (iouVal s.bbox c = 0 →
        ∀ k e, s.episode_true_bboxes.get? k = some e → k ∉ s.episode_masked_indices →
          k ≤ j) := by
  have hex : ∃ k e, s.episode_true_bboxes.get? k = some e ∧
      (0 + k) ∉ s.episode_masked_indices := by
    obtain ⟨k, e, hget, hkm⟩ :=
      unmasked_nonempty_exists s.episode_masked_indices s.episode_true_bboxes 0 hne
    exact ⟨k, e, hget, hkm⟩
  obtain ⟨j, c, hloop, ⟨k0, hget0, hj0, hjm⟩, hmax, hposc, hzeroc⟩ :=
    closest_loop_none_char s.bbox s.episode_masked_indices hpos
      s.episode_true_bboxes 0 hinv hex
  have htr := trigger_train cfg { s with current_step := s.current_step + 1 } j c
    hmode hpl (List.length_pos.mpr hne) hloop
  have hd := (dispatch_trigger cfg { s with current_step := s.current_step + 1 }).trans htr
  have hstep := step_intro cfg s (trigger_action cfg) _ _ _
    (trigger_action_lt cfg) hd (calculate_reward_trigger cfg _)
  refine ⟨_, _, _, j, c, hstep, ?_, ?_, hjm, ?_, ?_, ?_⟩
  · rw [(step_tail_fields cfg (trigger_action cfg) _).2.2.2.2.1]
    rfl
  · rw [show j = k0 from by omega]
    exact hget0
  · intro k e hget hkm
    exact hmax k e hget (by simpa using hkm)
  · intro hcp k e hget hkm hiou
    have := hposc hcp k e hget (by simpa using hkm) hiou
    omega
  · intro hc0 k e hget hkm
    have := hzeroc hc0 k e hget (by simpa using hkm)
    omega

/-- Witness for C1's amended theorem at a concrete input: the window exactly
covers the first ground-truth box (IoU 1 against it, 0 against the other),
so the masked index is 0, the unique maximizer. -/
theorem c1_witness :
    ∃ s' r d j c, step cfg_train { s_base with bbox := ⟨2, 2, 3, 3⟩ }
        (trigger_action cfg_train) = .ok (s', r, d) ∧
      s'.episode_masked_indices =
        ({ s_base with bbox := ⟨2, 2, 3, 3⟩ } : EnvState).episode_masked_indices ++ [j] ∧
      ({ s_base with bbox := ⟨2, 2, 3, 3⟩ } : EnvState).episode_true_bboxes.get? j
        = some c ∧
      j ∉ ({ s_base with bbox := ⟨2, 2, 3, 3⟩ } : EnvState).episode_masked_indices ∧
      (∀ k e, ({ s_base with bbox := ⟨2, 2, 3, 3⟩ } : EnvState).episode_true_bboxes.get? k
          = some e →
        k ∉ ({ s_base with bbox := ⟨2, 2, 3, 3⟩ } : EnvState).episode_masked_indices →
        iouVal ({ s_base with bbox := ⟨2, 2, 3, 3⟩ } : EnvState).bbox e ≤
          iouVal ({ s_base with bbox := ⟨2, 2, 3, 3⟩ } : EnvState).bbox c) ∧
      (0 < iouVal ({ s_base with bbox := ⟨2, 2, 3, 3⟩ } : EnvState).bbox c →
        ∀ k e, ({ s_base with bbox := ⟨2, 2, 3, 3⟩ } : EnvState).episode_true_bboxes.get? k
            = some e →
          k ∉ ({ s_base with bbox := ⟨2, 2, 3, 3⟩ } : EnvState).episode_masked_indices →
          iouVal ({ s_base with bbox := ⟨2, 2, 3, 3⟩ } : EnvState).bbox e =
            iouVal ({ s_base with bbox := ⟨2, 2, 3, 3⟩ } : EnvState).bbox c → j ≤ k) ∧
      (iouVal ({ s_base with bbox := ⟨2, 2, 3, 3⟩ } : EnvState).bbox c = 0 →
        ∀ k e, ({ s_base with bbox := ⟨2, 2, 3, 3⟩ } : EnvState).episode_true_bboxes.get? k
            = some e →
          k ∉ ({ s_base with bbox := ⟨2, 2, 3, 3⟩ } : EnvState).episode_masked_indices →
          k ≤ j) :=
  c1_masking_selection cfg_train { s_base with bbox := ⟨2, 2, 3, 3⟩ } rfl rfl
    (by constructor <;> norm_num)
    (by intro c hc; simp [s_base] at hc; rcases hc with h | h <;> subst h <;>
      constructor <;> norm_num)
    (by simp [episode_true_bboxes_unmasked, unmasked_go, s_base])

end TextLoc
